import Mathlib

/-! The zbar Python binding, `python/enum.c`.

A shallow embedding of the enumeration helper of the zbar Python binding
(`EnumItem`, `Enum`) as built for Python 3, followed by theorems about it.

The file uses the host runtime through a handful of calls.  Their behaviour
is written out here as far as `enum.c` depends on it:

* integer objects are `PyLongObject`s: a signed digit count `ob_size` and the
  magnitude in base `2 ^ 30`, least significant digit first (`longobject.c`);
  C `long` has 64 bits;
* `PyObject_New` returns memory that is not filled: the word that follows
  `ob_digit[0]` in a fresh item, which `enum.c` never writes, is an argument
  of the model, and so is whether the `name` field of the fresh item holds a
  pointer other than `NULL`; `tp_alloc` returns zero-filled memory;
* releasing an item runs `enumitem_dealloc`, whose `Py_CLEAR(self->name)`
  decrements the reference count behind `name` unless `name` is `NULL`; on a
  `name` that was never written and is not `NULL` this has no defined
  behaviour (`Outcome.undefined`);
* dictionaries keep their entries in insertion order, compare keys with the
  rich comparison of the key objects, and `PyDict_SetItem` on a key that is
  already present replaces the stored value and keeps the stored key;
* a runtime call whose result `enum.c` tests or returns can fail, and each
  such outcome is an explicit argument (`Runtime`, the arguments of
  `enumitem_repr`); a call whose result `enum.c` neither tests nor returns
  (`PySet_New`, `PySet_Add`, `PyLong_FromLong` in `zbarEnum_LookupValue`) is
  taken to succeed.
-/

namespace Zbar

/-! ## Integer objects of the host runtime -/

/-- Bits per digit of a `PyLongObject`. -/
def PyLong_SHIFT : Nat := 30

/-- Mask selecting one digit. -/
def PyLong_MASK : Nat := 2 ^ 30 - 1

/-- Smallest C `int`. -/
def INT_MIN : Int := -2147483648

/-- Largest C `int`. -/
def INT_MAX : Int := 2147483647

/-- Largest C `long` (LP64). -/
def LONG_MAX : Nat := 2 ^ 63 - 1

/-- Number of values of a C `unsigned long` (LP64). -/
def ULONG_RANGE : Nat := 2 ^ 64

/-- The integer part of an object: `ob_size` is the number of digits, negated
for a negative number and `0` for zero; `ob_digit` are the digit words that
follow in memory, least significant first. -/
structure PyLongObject where
  ob_size : Int
  ob_digit : List Nat
deriving DecidableEq, Repr

/-- The second loop of `PyLong_FromLong`: `while (t) { *p++ = t & MASK; t >>= SHIFT; }`.
The first argument bounds the number of iterations; a C `unsigned long` is
exhausted after three. -/
def PyLong_digits : Nat → Nat → List Nat
  | 0, _ => []
  | fuel + 1, t =>
    if t = 0 then [] else (t &&& PyLong_MASK) :: PyLong_digits fuel (t >>> PyLong_SHIFT)

/-- `PyLong_FromLong` of `longobject.c` (taken to succeed). -/
def PyLong_FromLong (ival : Int) : PyLongObject :=
  let abs_ival : Nat := ival.natAbs
  let sign : Int := if ival < 0 then -1 else if ival = 0 then 0 else 1
  if abs_ival >>> PyLong_SHIFT = 0 then
    ⟨sign, [abs_ival]⟩
  else
    let digits := PyLong_digits 64 abs_ival
    ⟨(digits.length : Int) * sign, digits⟩

/-- The loop of `PyLong_AsLong`, from the most significant digit down:
`x = (x << SHIFT) | digit; if ((x >> SHIFT) != prev) overflow`. -/
def PyLong_AsLong_loop : List Nat → Nat → Option Nat
  | [], x => some x
  | d :: ds, x =>
    let x1 := ((x <<< PyLong_SHIFT) ||| d) % ULONG_RANGE
    if x1 >>> PyLong_SHIFT ≠ x then none else PyLong_AsLong_loop ds x1

/-- `PyLong_AsLong` of `longobject.c`; `-1` is what it returns on overflow. -/
def PyLong_AsLong (v : PyLongObject) : Int :=
  if v.ob_size = -1 then -((v.ob_digit.headD 0 : Nat) : Int)
  else if v.ob_size = 0 then 0
  else if v.ob_size = 1 then ((v.ob_digit.headD 0 : Nat) : Int)
  else
    let sign : Int := if v.ob_size < 0 then -1 else 1
    match PyLong_AsLong_loop (v.ob_digit.take v.ob_size.natAbs).reverse 0 with
    | none => -1
    | some x =>
      if x ≤ LONG_MAX then (x : Int) * sign
      else if sign < 0 ∧ x = LONG_MAX + 1 then -((LONG_MAX : Int) + 1)
      else -1

/-- Whether `PyLong_AsLong` leaves `OverflowError` set, which is when it
returns `-1` for an object that does not fit a C `long`: the branches of
`PyLong_AsLong` that report overflow. -/
def PyLong_AsLong_overflow (v : PyLongObject) : Bool :=
  if v.ob_size = -1 then false
  else if v.ob_size = 0 then false
  else if v.ob_size = 1 then false
  else
    let sign : Int := if v.ob_size < 0 then -1 else 1
    match PyLong_AsLong_loop (v.ob_digit.take v.ob_size.natAbs).reverse 0 with
    | none => true
    | some x =>
      if x ≤ LONG_MAX then false
      else if sign < 0 ∧ x = LONG_MAX + 1 then false
      else true

/-- Equality as decided by `long_compare`: the same `ob_size` and the same
digits in the `|ob_size|` digit words. -/
def long_eq (a b : PyLongObject) : Bool :=
  a.ob_size == b.ob_size &&
    a.ob_digit.take a.ob_size.natAbs == b.ob_digit.take a.ob_size.natAbs

/-! ## Objects -/

/-- Modelled from the spec: the declaration of `zbarEnumItem` (`zbarmodule.h`)
is not part of `enum.c`.  An item holds an integer value and a name; the
fields are the ones `enum.c` reads and writes: `val`, the integer object that
heads the item (`Py_SIZE(&self->val)`, `self->val.ob_digit[0]`), and `name`.
`tp_name` is `ob_type->tp_name`, the name of the item's type. -/
structure zbarEnumItem where
  val : PyLongObject
  name : String
  tp_name : String
deriving DecidableEq, Repr

/-- The objects that occur: exact integers, strings, enumeration items. -/
inductive PyObject where
  | long (v : PyLongObject)
  | unicode (s : String)
  | enumItem (e : zbarEnumItem)
deriving DecidableEq, Repr

/-- Modelled from the spec: the base type of `zbarEnumItem_Type` is set
outside `enum.c`; an item is comparable as an integer via its stored value.
Key comparison of dictionaries and sets (`Py_EQ`): an item compares through
its integer part, as `long_compare` does; strings compare by content. -/
def PyObject_Eq : PyObject → PyObject → Bool
  | .long a, .long b => long_eq a b
  | .long a, .enumItem b => long_eq a b.val
  | .enumItem a, .long b => long_eq a.val b
  | .enumItem a, .enumItem b => long_eq a.val b.val
  | .unicode s, .unicode t => s == t
  | _, _ => false

/-- A dictionary whose values are items: entries in insertion order. -/
abbrev PyDict := List (PyObject × zbarEnumItem)

/-- `PyDict_SetItem` when it succeeds. -/
def PyDict_SetItem : PyDict → PyObject → zbarEnumItem → PyDict
  | [], key, value => [(key, value)]
  | (k, v) :: rest, key, value =>
    if PyObject_Eq k key then (k, value) :: rest
    else (k, v) :: PyDict_SetItem rest key value

/-- `PyDict_GetItem`: the value stored under an equal key, if any. -/
def PyDict_GetItem : PyDict → PyObject → Option zbarEnumItem
  | [], _ => none
  | (k, v) :: rest, key => if PyObject_Eq k key then some v else PyDict_GetItem rest key

/-- `PySet_Add` when it succeeds: an element equal to one already present is
not added. -/
def PySet_Add (set : List zbarEnumItem) (item : zbarEnumItem) : List zbarEnumItem :=
  if set.any (fun x => long_eq x.val item.val) then set else set ++ [item]

/-- What a call does: it returns a value, or it runs into behaviour that the
C source leaves undefined. -/
inductive Outcome (α : Type) where
  | returns (value : α)
  | undefined
deriving DecidableEq, Repr

/-! ## `EnumItem` -/

/-- The `#if PY_MAJOR_VERSION >= 3` block shared by `enumitem_new` and
`zbarEnumItem_New`: `ob_size` and `ob_digit[0]` of `longval` are copied into
the item; `word` is what the item's memory holds after `ob_digit[0]`, which
is not written. -/
def copy_longval (longval : PyLongObject) (word : Nat) : PyLongObject :=
  ⟨longval.ob_size, [longval.ob_digit.headD 0, word]⟩

/-- `enumitem_new`, the constructor reachable from Python.  `args` is the
result of `PyArg_ParseTupleAndKeywords` with format `"iS"` (`none` when it
fails), `tp_name` names `type`; `type->tp_alloc` returns zero-filled memory,
so the word after `ob_digit[0]` reads `0`, and `name` is `NULL` when the item
is released after a failed `PyLong_FromLong`. -/
def enumitem_new (tp_name : String) (args : Option (Int × String))
    (alloc_ok long_ok : Bool) : Option zbarEnumItem :=
  match args with
  | none => none
  | some (val, name) =>
    if !alloc_ok then none
    else if !long_ok then none
    else some ⟨copy_longval (PyLong_FromLong val) 0, name, tp_name⟩

/-- `enumitem_str`: the name object. -/
def enumitem_str (self : zbarEnumItem) : PyObject :=
  .unicode self.name

/-- `enumitem_repr`.  `repr` is `PyObject_Repr` on the name (`none` when it
fails); `format_ok` tells whether `PyUnicode_FromFormat`, with the format
`"%s(%ld, %U)"`, returns an object, and its result is returned as it is.
The first component is the returned object (`none` for `NULL`), the second
tells whether `PyLong_AsLong((PyObject *)self)` left `OverflowError` set,
which `enumitem_repr` does not test. -/
def enumitem_repr (repr : String → Option String) (format_ok : Bool) (self : zbarEnumItem) :
    Option String × Bool :=
  match repr self.name with
  | none => (none, false)
  | some name =>
    let value := PyLong_AsLong self.val
    let overflow := PyLong_AsLong_overflow self.val
    if !format_ok then (none, overflow)
    else (some (self.tp_name ++ "(" ++ toString value ++ ", " ++ name ++ ")"), overflow)

/-- Outcomes of the runtime calls of one `zbarEnumItem_New`. -/
structure Runtime where
  /-- `PyObject_New`: `none` for `NULL`, else the content of the word after
  `ob_digit[0]` in the fresh, unfilled object. -/
  object : Option Nat
  /-- `PyLong_FromLong` returned an object. -/
  long_ok : Bool
  /-- `PyUnicode_FromString` returned an object. -/
  name_ok : Bool
  /-- `PyDict_SetItem` on `byname` returned `0`. -/
  byname_ok : Bool
  /-- `PyDict_SetItem` on `byvalue` returned `0`. -/
  byvalue_ok : Bool
  /-- The `name` field of the fresh, unfilled object holds a pointer other
  than `NULL`. -/
  stale_name : Bool
deriving DecidableEq, Repr

/-- `zbarEnumItem_New`: the returned item (`none` for `NULL`) and the two
dictionaries afterwards.  A dictionary argument may be `NULL` (`none`).
When `PyLong_FromLong` fails, `Py_DECREF(self)` releases the item before
`self->name` was written: `enumitem_dealloc` then clears whatever the field
holds, which is defined only if that is `NULL`.  On the later failures
`self->name` has been written. -/
def zbarEnumItem_New (rt : Runtime) (byname byvalue : Option PyDict) (val : Int)
    (name : String) : Outcome (Option zbarEnumItem × Option PyDict × Option PyDict) :=
  match rt.object with
  | none => .returns (none, byname, byvalue)
  | some word =>
    if !rt.long_ok then
      if rt.stale_name then .undefined else .returns (none, byname, byvalue)
    else
      let self : zbarEnumItem := ⟨copy_longval (PyLong_FromLong val) word, name, "zbar.EnumItem"⟩
      if !rt.name_ok then .returns (none, byname, byvalue)
      else
        match byname with
        | some d =>
          if !rt.byname_ok then .returns (none, byname, byvalue)
          else
            let byname1 := some (PyDict_SetItem d (.unicode name) self)
            match byvalue with
            | some d2 =>
              if !rt.byvalue_ok then .returns (none, byname1, byvalue)
              else .returns (some self, byname1, some (PyDict_SetItem d2 (.enumItem self) self))
            | none => .returns (some self, byname1, byvalue)
        | none =>
          match byvalue with
          | some d2 =>
            if !rt.byvalue_ok then .returns (none, byname, byvalue)
            else .returns (some self, byname, some (PyDict_SetItem d2 (.enumItem self) self))
          | none => .returns (some self, byname, byvalue)

/-! ## `Enum` -/

/-- Modelled from the spec: the declaration of `zbarEnum` (`zbarmodule.h`) is
not part of `enum.c`.  An `Enum` holds the two indexes `enum.c` uses, the
dictionaries `byname` (name to item) and `byvalue` (value to item). -/
structure zbarEnum where
  byname : PyDict
  byvalue : PyDict
deriving DecidableEq, Repr

/-- `zbarEnum_New`; the arguments are the outcomes of `PyObject_GC_New` and
of the two `PyDict_New`. -/
def zbarEnum_New (self_ok byname_ok byvalue_ok : Bool) : Option zbarEnum :=
  if !self_ok then none
  else if !byname_ok || !byvalue_ok then none
  else some ⟨[], []⟩

/-- `zbarEnum_Add`: the returned status and the `Enum` afterwards. -/
def zbarEnum_Add (rt : Runtime) (self : zbarEnum) (val : Int) (name : String) :
    Outcome (Int × zbarEnum) :=
  match zbarEnumItem_New rt (some self.byname) (some self.byvalue) val name with
  | .undefined => .undefined
  | .returns (item, byname, byvalue) =>
    let self1 : zbarEnum := ⟨byname.getD self.byname, byvalue.getD self.byvalue⟩
    match item with
    | none => .returns (-1, self1)
    | some _ => .returns (0, self1)

/-- `zbarEnum_LookupValue`: the item found, or the key itself. -/
def zbarEnum_LookupValue (self : zbarEnum) (val : Int) : PyObject :=
  let key := PyLong_FromLong val
  match PyDict_GetItem self.byvalue (.long key) with
  | none => .long key
  | some e => .enumItem e

/-- `zbarEnum_SetFromMask`: the loop over `byvalue` with `PyDict_Next`;
`mask` is a C `unsigned int`, `sizeof(mask) * 8` is `32`.  The result is the
set built; an error that `PyLong_AsLong` leaves set, which the loop does not
test, is not part of it. -/
def zbarEnum_SetFromMask (self : zbarEnum) (mask : Nat) : List zbarEnumItem :=
  self.byvalue.foldl
    (fun result entry =>
      let val : Nat := (PyLong_AsLong entry.2.val % (ULONG_RANGE : Int)).toNat
      if val < 32 ∧ (mask >>> val) &&& 1 ≠ 0 then PySet_Add result entry.2 else result)
    []

/-! ## Attribute access -/

/-- What a type offers for an attribute name: a data descriptor, which is
served before the instance dictionary, or any other attribute, served after
it.  The object is what the access yields. -/
inductive TypeAttr where
  | data (value : PyObject)
  | other (value : PyObject)
deriving DecidableEq, Repr

/-- The text of `enum_doc`. -/
def enum_doc : String :=
  "enumeration container for EnumItems.\n\nexposes items as read-only attributes"

/-- Lookup of a name on `zbarEnum_Type`: `tp_doc` makes `__doc__` an
attribute of the type; `base` stands for what the base type `object`
offers. -/
def zbarEnum_Type_lookup (base : String → Option TypeAttr) (name : String) :
    Option TypeAttr :=
  if name = "__doc__" then some (.other (.unicode enum_doc)) else base name

/-- Attribute access on an `Enum`, the generic attribute lookup of the
runtime with the instance dictionary at `tp_dictoffset`, which is `byname`.
`none` is the attribute error. -/
def zbarEnum_getattr (base : String → Option TypeAttr) (self : zbarEnum) (name : String) :
    Option PyObject :=
  match zbarEnum_Type_lookup base name with
  | some (.data value) => some value
  | descr =>
    match PyDict_GetItem self.byname (.unicode name) with
    | some e => some (.enumItem e)
    | none =>
      match descr with
      | some (.other value) => some value
      | _ => none

/-! ## Sequences of additions -/

/-- One call `zbarEnum_Add(self, val, name)` with its runtime outcomes. -/
structure AddCall where
  val : Int
  name : String
  rt : Runtime
deriving DecidableEq, Repr

/-- Run the calls in order; `none` as soon as one of them does not return
zero. -/
def addAll : zbarEnum → List AddCall → Option zbarEnum
  | self, [] => some self
  | self, c :: cs =>
    match zbarEnum_Add c.rt self c.val c.name with
    | .returns (status, self1) => if status = 0 then addAll self1 cs else none
    | .undefined => none

/-- The runtime outcomes of a call in which nothing fails, the `name` field
of the fresh object reading `NULL`. -/
def Runtime.success (word : Nat) : Runtime := ⟨some word, true, true, true, true, false⟩

/-- Nothing fails: every runtime call of `zbarEnumItem_New` returns an
object, or `0`. -/
def Runtime.ok (rt : Runtime) : Bool :=
  rt.object.isSome && rt.long_ok && rt.name_ok && rt.byname_ok && rt.byvalue_ok

/-- A successful call. -/
def AddCall.mk_ok (val : Int) (name : String) (word : Nat) : AddCall :=
  ⟨val, name, Runtime.success word⟩

/-- The item a successful call creates. -/
def AddCall.item (c : AddCall) : zbarEnumItem :=
  ⟨copy_longval (PyLong_FromLong c.val) (c.rt.object.getD 0), c.name, "zbar.EnumItem"⟩

/-- The value is a C `int`. -/
def is_int (val : Int) : Prop := INT_MIN ≤ val ∧ val ≤ INT_MAX

instance (val : Int) : Decidable (is_int val) := by unfold is_int; infer_instance

/-- The value fits in one digit of a `PyLongObject`. -/
def single_digit (val : Int) : Prop := val.natAbs < 2 ^ 30

instance (val : Int) : Decidable (single_digit val) := by unfold single_digit; infer_instance


/-- The `Enum` after a successful call: the created item is stored under its
name in `byname` and under itself in `byvalue`. -/
def register (self : zbarEnum) (c : AddCall) : zbarEnum :=
  ⟨PyDict_SetItem self.byname (.unicode c.name) c.item,
    PyDict_SetItem self.byvalue (.enumItem c.item) c.item⟩

/-- The last of the calls that satisfies `p`. -/
def lastCall (p : AddCall → Bool) (calls : List AddCall) : Option AddCall :=
  calls.reverse.find? p

/-- The `byname` entry a successful call creates when its name is new. -/
def AddCall.byname_entry (c : AddCall) : PyObject × zbarEnumItem :=
  (.unicode c.name, c.item)

/-- The `byvalue` entry a successful call creates when its value is new. -/
def AddCall.byvalue_entry (c : AddCall) : PyObject × zbarEnumItem :=
  (.enumItem c.item, c.item)

/-- The test of `zbarEnum_SetFromMask` in terms of the added value: the
value is a bit number of the mask and that bit is set. -/
def AddCall.selected (mask : Nat) (c : AddCall) : Bool :=
  decide (0 ≤ c.val ∧ c.val < 32 ∧ (mask >>> c.val.toNat) &&& 1 ≠ 0)

/-- The loop body of `zbarEnum_SetFromMask`. -/
def setFromMask_step (mask : Nat) (result : List zbarEnumItem)
    (entry : PyObject × zbarEnumItem) : List zbarEnumItem :=
  let val : Nat := (PyLong_AsLong entry.2.val % (ULONG_RANGE : Int)).toNat
  if val < 32 ∧ (mask >>> val) &&& 1 ≠ 0 then PySet_Add result entry.2 else result

/-- What every `byvalue` built by additions satisfies: the stored keys are
pairwise unequal, and every value is equal to the key it is stored under. -/
def byvalue_wf (d : PyDict) : Prop :=
  d.Pairwise (fun x y => PyObject_Eq x.1 y.1 = false) ∧
    ∀ entry ∈ d, PyObject_Eq entry.1 (.enumItem entry.2) = true


/-! ## Integer objects: facts -/

theorem PyLong_FromLong_single (v : Int) (h : single_digit v) :
    PyLong_FromLong v = ⟨if v < 0 then -1 else if v = 0 then 0 else 1, [v.natAbs]⟩ := by
  unfold single_digit at h
  have h0 : v.natAbs >>> PyLong_SHIFT = 0 := by
    rw [Nat.shiftRight_eq_div_pow]
    exact Nat.div_eq_of_lt h
  simp [PyLong_FromLong, h0]

theorem PyLong_digits_length (t : Nat) (h : 2 ^ 30 ≤ t) : 2 ≤ (PyLong_digits 64 t).length := by
  have h1 : t ≠ 0 := by omega
  have h2 : t >>> PyLong_SHIFT ≠ 0 := by
    rw [Nat.shiftRight_eq_div_pow]
    have : 1 ≤ t / 2 ^ PyLong_SHIFT := (Nat.one_le_div_iff (by decide)).mpr h
    omega
  simp [PyLong_digits, h1, h2]

theorem PyLong_FromLong_wide (v : Int) (h : ¬ single_digit v) :
    2 ≤ (PyLong_FromLong v).ob_size.natAbs := by
  unfold single_digit at h
  have h30 : 2 ^ 30 ≤ v.natAbs := by omega
  have h0 : v.natAbs >>> PyLong_SHIFT ≠ 0 := by
    rw [Nat.shiftRight_eq_div_pow]
    have : 1 ≤ v.natAbs / 2 ^ PyLong_SHIFT := (Nat.one_le_div_iff (by decide)).mpr h30
    omega
  have hl := PyLong_digits_length v.natAbs h30
  have hv : v ≠ 0 := by
    intro hv
    rw [hv] at h30
    simp at h30
  simp only [PyLong_FromLong, h0, if_false]
  by_cases hneg : v < 0
  · simp [hneg, Int.natAbs_mul]
    exact hl
  · simp [hneg, hv]
    exact hl

theorem long_eq_refl (a : PyLongObject) : long_eq a a = true := by
  simp [long_eq]

theorem long_eq_symm {a b : PyLongObject} (h : long_eq a b = true) : long_eq b a = true := by
  simp only [long_eq, Bool.and_eq_true, beq_iff_eq] at h ⊢
  obtain ⟨h1, h2⟩ := h
  exact ⟨h1.symm, by rw [← h1]; exact h2.symm⟩

theorem long_eq_trans {a b c : PyLongObject} (h : long_eq a b = true) (h' : long_eq b c = true) :
    long_eq a c = true := by
  simp only [long_eq, Bool.and_eq_true, beq_iff_eq] at h h' ⊢
  obtain ⟨h1, h2⟩ := h
  obtain ⟨h3, h4⟩ := h'
  refine ⟨h1.trans h3, ?_⟩
  rw [← h1] at h4
  exact h2.trans h4

theorem PyObject_Eq_refl (a : PyObject) : PyObject_Eq a a = true := by
  cases a <;> simp [PyObject_Eq, long_eq_refl]

theorem PyObject_Eq_symm {a b : PyObject} (h : PyObject_Eq a b = true) :
    PyObject_Eq b a = true := by
  cases a <;> cases b <;> simp only [PyObject_Eq] at h ⊢ <;>
    first
    | exact long_eq_symm h
    | (simp at h; done)
    | (simp at h ⊢; exact h.symm)

theorem PyObject_Eq_trans {a b c : PyObject} (h : PyObject_Eq a b = true)
    (h' : PyObject_Eq b c = true) : PyObject_Eq a c = true := by
  cases a <;> cases b <;> cases c <;> simp only [PyObject_Eq] at h h' ⊢ <;>
    first
    | exact long_eq_trans h h'
    | (simp at h; done)
    | (simp at h'; done)
    | (simp at h h' ⊢; exact h.trans h')

/-! ## Dictionaries: facts -/

theorem PyDict_GetItem_SetItem (d : PyDict) (k k' : PyObject) (v : zbarEnumItem) :
    PyDict_GetItem (PyDict_SetItem d k v) k' =
      if PyObject_Eq k k' then some v else PyDict_GetItem d k' := by
  induction d with
  | nil => simp [PyDict_SetItem, PyDict_GetItem]
  | cons entry rest ih =>
    obtain ⟨k0, v0⟩ := entry
    by_cases h0 : PyObject_Eq k0 k = true
    · simp only [PyDict_SetItem, h0, if_true, PyDict_GetItem]
      by_cases h1 : PyObject_Eq k k' = true
      · simp [h1, PyObject_Eq_trans h0 h1]
      · have h2 : PyObject_Eq k0 k' = false := by
          by_contra hc
          simp only [Bool.not_eq_false] at hc
          exact h1 (PyObject_Eq_trans (PyObject_Eq_symm h0) hc)
        simp [h1, h2]
        -- the entry replaced does not answer k', the rest is as before
    · simp only [PyDict_SetItem, h0, PyDict_GetItem, ih]
      by_cases h1 : PyObject_Eq k k' = true
      · have h2 : PyObject_Eq k0 k' = false := by
          by_contra hc
          simp only [Bool.not_eq_false] at hc
          exact h0 (PyObject_Eq_trans hc (PyObject_Eq_symm h1))
        simp [h1, h2]
      · simp [h1]


/-! ## Additions: facts -/

theorem zbarEnum_New_eq_some {a b c : Bool} {e : zbarEnum} (h : zbarEnum_New a b c = some e) :
    e = ⟨[], []⟩ := by
  unfold zbarEnum_New at h
  split at h
  · simp at h
  · split at h
    · simp at h
    · simp at h; exact h.symm

theorem zbarEnum_Add_eq_zero_iff (rt : Runtime) (self : zbarEnum) (val : Int) (name : String) :
    (∃ self1, zbarEnum_Add rt self val name = .returns (0, self1)) ↔ rt.ok = true := by
  obtain ⟨object, long_ok, name_ok, byname_ok, byvalue_ok, stale_name⟩ := rt
  cases object <;> cases long_ok <;> cases name_ok <;> cases byname_ok <;> cases byvalue_ok <;>
    cases stale_name <;> simp [zbarEnum_Add, zbarEnumItem_New, Runtime.ok]

theorem zbarEnum_Add_success (rt : Runtime) (self : zbarEnum) (val : Int) (name : String)
    (h : rt.ok = true) :
    zbarEnum_Add rt self val name = .returns (0, register self ⟨val, name, rt⟩) := by
  obtain ⟨object, long_ok, name_ok, byname_ok, byvalue_ok, stale_name⟩ := rt
  cases object <;> cases long_ok <;> cases name_ok <;> cases byname_ok <;> cases byvalue_ok <;>
    cases stale_name <;>
    simp [zbarEnum_Add, zbarEnumItem_New, Runtime.ok, register, AddCall.item] at h ⊢

theorem Runtime.success_ok (word : Nat) : (Runtime.success word).ok = true := rfl

theorem addAll_eq_some {calls : List AddCall} {self e : zbarEnum}
    (h : addAll self calls = some e) :
    (∀ c ∈ calls, c.rt.ok = true) ∧ e = calls.foldl register self := by
  induction calls generalizing self with
  | nil =>
    simp [addAll] at h
    simp [h]
  | cons c cs ih =>
    simp only [addAll] at h
    split at h
    · rename_i status self1 hadd
      split at h
      · rename_i h0
        subst h0
        have hok : c.rt.ok = true :=
          (zbarEnum_Add_eq_zero_iff c.rt self c.val c.name).mp ⟨self1, hadd⟩
        have h1 := zbarEnum_Add_success c.rt self c.val c.name hok
        rw [h1] at hadd
        simp only [Outcome.returns.injEq, Prod.mk.injEq, true_and] at hadd
        subst hadd
        obtain ⟨ih1, ih2⟩ := ih h
        refine ⟨?_, ?_⟩
        · intro c' hc'
          rcases List.mem_cons.mp hc' with rfl | hc'
          · exact hok
          · exact ih1 c' hc'
        · simpa using ih2
      · simp at h
    · simp at h

theorem addAll_success (calls : List AddCall) (self : zbarEnum)
    (h : ∀ c ∈ calls, c.rt.ok = true) :
    addAll self calls = some (calls.foldl register self) := by
  induction calls generalizing self with
  | nil => simp [addAll]
  | cons c cs ih =>
    have hok := h c (List.mem_cons_self _ _)
    have h1 := zbarEnum_Add_success c.rt self c.val c.name hok
    simp only [addAll, h1, if_true, List.foldl_cons]
    exact ih _ (fun c' hc' => h c' (List.mem_cons_of_mem _ hc'))

theorem lastCall_cons (p : AddCall → Bool) (c : AddCall) (cs : List AddCall) :
    lastCall p (c :: cs) = (lastCall p cs).or (if p c then some c else none) := by
  simp only [lastCall, List.reverse_cons, List.find?_append]
  congr 1
  by_cases h : p c = true <;> simp [List.find?, h]

theorem lastCall_split (p : AddCall → Bool) (pre post : List AddCall) (c : AddCall)
    (hc : p c = true) (hpost : ∀ c' ∈ post, p c' = false) :
    lastCall p (pre ++ c :: post) = some c := by
  have h1 : post.reverse.find? p = none := by
    rw [List.find?_eq_none]
    intro x hx
    simp [hpost x (List.mem_reverse.mp hx)]
  simp [lastCall, List.find?_append, h1, List.find?, hc]

theorem lastCall_none (p : AddCall → Bool) (calls : List AddCall)
    (h : ∀ c ∈ calls, p c = false) : lastCall p calls = none := by
  rw [lastCall, List.find?_eq_none]
  intro x hx
  simp [h x (List.mem_reverse.mp hx)]

theorem byvalue_foldl (calls : List AddCall) (self : zbarEnum) (key : PyObject) :
    PyDict_GetItem (calls.foldl register self).byvalue key =
      ((lastCall (fun c => PyObject_Eq (.enumItem c.item) key) calls).map AddCall.item).or
        (PyDict_GetItem self.byvalue key) := by
  induction calls generalizing self with
  | nil => simp [lastCall]
  | cons c cs ih =>
    rw [List.foldl_cons, ih, lastCall_cons]
    cases lastCall (fun c => PyObject_Eq (.enumItem c.item) key) cs with
    | some c' => simp
    | none =>
      simp only [register, PyDict_GetItem_SetItem, Option.map_none', Option.none_or]
      by_cases h : PyObject_Eq (.enumItem c.item) key = true <;> simp [h]

theorem byname_foldl (calls : List AddCall) (self : zbarEnum) (key : PyObject) :
    PyDict_GetItem (calls.foldl register self).byname key =
      ((lastCall (fun c => PyObject_Eq (.unicode c.name) key) calls).map AddCall.item).or
        (PyDict_GetItem self.byname key) := by
  induction calls generalizing self with
  | nil => simp [lastCall]
  | cons c cs ih =>
    rw [List.foldl_cons, ih, lastCall_cons]
    cases lastCall (fun c => PyObject_Eq (.unicode c.name) key) cs with
    | some c' => simp
    | none =>
      simp only [register, PyDict_GetItem_SetItem, Option.map_none', Option.none_or]
      by_cases h : PyObject_Eq (.unicode c.name) key = true <;> simp [h]

/-- Against a key of one digit, an item answers exactly for the value it was
created with, whatever its unwritten digit word holds. -/
theorem item_eq_key (c : AddCall) (v : Int) (hv : single_digit v) :
    PyObject_Eq (.enumItem c.item) (.long (PyLong_FromLong v)) = decide (c.val = v) := by
  rw [PyLong_FromLong_single v hv]
  by_cases hc : single_digit c.val
  · simp only [PyObject_Eq, AddCall.item, copy_longval, PyLong_FromLong_single c.val hc, long_eq]
    by_cases hcv : c.val = v
    · subst hcv
      by_cases h1 : c.val < 0
      · simp [h1]
      · by_cases h2 : c.val = 0 <;> simp [h1, h2]
    · simp only [hcv, decide_False]
      by_cases h1 : c.val < 0 <;> by_cases h2 : v < 0 <;> by_cases h3 : c.val = 0 <;>
        by_cases h4 : v = 0 <;> simp [h1, h2, h3, h4] <;> omega
  · have hw := PyLong_FromLong_wide c.val hc
    have hne : c.val ≠ v := by
      intro h
      exact hc (h ▸ hv)
    simp only [PyObject_Eq, AddCall.item, copy_longval, long_eq, hne, decide_False]
    have : (PyLong_FromLong c.val).ob_size ≠ (if v < 0 then -1 else if v = 0 then 0 else 1) := by
      intro h
      rw [h] at hw
      split at hw
      · simp at hw
      · split at hw <;> simp at hw
    simp [this]


theorem PyLong_digits_wide (t : Nat) (h : 2 ^ 30 ≤ t) (h' : t < 2 ^ 60) :
    PyLong_digits 64 t = [t % 2 ^ 30, t / 2 ^ 30] := by
  have h1 : t ≠ 0 := by omega
  have h2 : t >>> PyLong_SHIFT ≠ 0 := by
    rw [Nat.shiftRight_eq_div_pow]
    have : 1 ≤ t / 2 ^ PyLong_SHIFT := (Nat.one_le_div_iff (by decide)).mpr h
    omega
  have h3 : t >>> PyLong_SHIFT >>> PyLong_SHIFT = 0 := by
    rw [Nat.shiftRight_eq_div_pow, Nat.shiftRight_eq_div_pow]
    simp only [PyLong_SHIFT]
    omega
  have hm : PyLong_MASK = 2 ^ 30 - 1 := rfl
  have h4 : t >>> PyLong_SHIFT &&& PyLong_MASK = t / 2 ^ 30 := by
    rw [hm, Nat.and_pow_two_sub_one_eq_mod, Nat.shiftRight_eq_div_pow]
    simp only [PyLong_SHIFT]
    omega
  have h5 : t &&& PyLong_MASK = t % 2 ^ 30 := by
    rw [hm, Nat.and_pow_two_sub_one_eq_mod]
  simp [PyLong_digits, h1, h2, h3, h4, h5]

theorem PyLong_FromLong_wide_eq (v : Int) (h : ¬ single_digit v) (h' : v.natAbs < 2 ^ 60) :
    PyLong_FromLong v =
      ⟨if v < 0 then -2 else 2, [v.natAbs % 2 ^ 30, v.natAbs / 2 ^ 30]⟩ := by
  unfold single_digit at h
  have h30 : 2 ^ 30 ≤ v.natAbs := by omega
  have h0 : v.natAbs >>> PyLong_SHIFT ≠ 0 := by
    rw [Nat.shiftRight_eq_div_pow]
    have : 1 ≤ v.natAbs / 2 ^ PyLong_SHIFT := (Nat.one_le_div_iff (by decide)).mpr h30
    omega
  have hv : v ≠ 0 := by
    intro hv
    rw [hv] at h30
    simp at h30
  simp only [PyLong_FromLong, h0, if_false, PyLong_digits_wide _ h30 h']
  by_cases hneg : v < 0 <;> simp [hneg, hv]

theorem PyLong_AsLong_two (s : Int) (d0 d1 : Nat) (rest : List Nat) (hs : s = 2 ∨ s = -2)
    (h0 : d0 < 2 ^ 30) (h1 : d1 < 2 ^ 30) :
    PyLong_AsLong ⟨s, d0 :: d1 :: rest⟩ =
      (if s < 0 then -1 else 1) * ((d1 * 2 ^ 30 + d0 : Nat) : Int) := by
  have e1 : d1 % ULONG_RANGE = d1 := by
    simp only [ULONG_RANGE]
    omega
  have e2 : ((d1 <<< PyLong_SHIFT) ||| d0) % ULONG_RANGE = d1 * 1073741824 + d0 := by
    have : (d1 <<< PyLong_SHIFT) ||| d0 = 2 ^ 30 * d1 + d0 := by
      rw [Nat.mul_add_lt_is_or h0, Nat.shiftLeft_eq, Nat.mul_comm]
      rfl
    rw [this]
    simp only [ULONG_RANGE]
    omega
  have e3 : d1 >>> PyLong_SHIFT = 0 := by
    rw [Nat.shiftRight_eq_div_pow]
    exact Nat.div_eq_of_lt h1
  have e4 : (d1 * 1073741824 + d0) >>> PyLong_SHIFT = d1 := by
    rw [Nat.shiftRight_eq_div_pow]
    simp only [PyLong_SHIFT]
    omega
  have e5 : d1 * 1073741824 + d0 ≤ LONG_MAX := by
    simp only [LONG_MAX]
    omega
  rcases hs with rfl | rfl
  · simp [PyLong_AsLong, PyLong_AsLong_loop, e1, e2, e3, e4, e5]
  · simp [PyLong_AsLong, PyLong_AsLong_loop, e1, e2, e3, e4, e5]

/-- An object that compares equal to the integer object of a C `int` reads
back as that `int`. -/
theorem PyLong_AsLong_of_eq (a : PyLongObject) (v : Int) (hv : is_int v)
    (h : long_eq a (PyLong_FromLong v) = true) : PyLong_AsLong a = v := by
  obtain ⟨s, digits⟩ := a
  unfold is_int INT_MIN INT_MAX at hv
  by_cases hd : single_digit v
  · rw [PyLong_FromLong_single v hd] at h
    simp only [long_eq, Bool.and_eq_true, beq_iff_eq] at h
    obtain ⟨hs, ht⟩ := h
    by_cases h1 : v < 0
    · simp only [h1, if_true] at hs
      subst hs
      cases digits with
      | nil => simp at ht
      | cons d ds =>
        have hd0 : d = v.natAbs := by simpa using ht
        simp only [PyLong_AsLong, if_true, List.headD_cons, hd0]
        omega
    · by_cases h2 : v = 0
      · simp only [h1, h2, if_false, if_true] at hs
        subst hs
        simp [PyLong_AsLong, h2]
      · simp only [h1, h2, if_false] at hs
        subst hs
        cases digits with
        | nil => simp at ht
        | cons d ds =>
          have hd0 : d = v.natAbs := by simpa using ht
          have e1 : ¬ ((1 : Int) = -1) := by decide
          have e2 : ¬ ((1 : Int) = 0) := by decide
          simp only [PyLong_AsLong, e1, e2, if_false, if_true, List.headD_cons, hd0]
          omega
  · have hlt : v.natAbs < 2 ^ 60 := by omega
    rw [PyLong_FromLong_wide_eq v hd hlt] at h
    simp only [long_eq, Bool.and_eq_true, beq_iff_eq] at h
    obtain ⟨hs, ht⟩ := h
    have hs2 : s = 2 ∨ s = -2 := by
      by_cases h1 : v < 0 <;> simp [h1] at hs <;> simp [hs]
    have hn : s.natAbs = 2 := by
      rcases hs2 with rfl | rfl <;> rfl
    rw [hn] at ht
    match digits, ht with
    | d0 :: d1 :: rest, ht =>
      simp only [List.take_succ_cons, List.take_zero, List.cons.injEq, and_true] at ht
      obtain ⟨hd0, hd1⟩ := ht
      have b0 : d0 < 2 ^ 30 := by rw [hd0]; exact Nat.mod_lt _ (by decide)
      have b1 : d1 < 2 ^ 30 := by rw [hd1]; omega
      rw [PyLong_AsLong_two s d0 d1 rest hs2 b0 b1, hd0, hd1]
      by_cases h1 : v < 0
      · have hs3 : s = -2 := by simpa [h1] using hs
        subst hs3
        simp only [show ((-2 : Int) < 0) from by decide, if_true]
        omega
      · have hs3 : s = 2 := by simpa [h1] using hs
        subst hs3
        simp only [show ¬ ((2 : Int) < 0) from by decide, if_false]
        omega
    | [], ht => simp at ht
    | [d0], ht => simp at ht


theorem lastCall_unique (p : AddCall → Bool) (calls : List AddCall) (c : AddCall)
    (hc : c ∈ calls) (hp : p c = true) (hu : ∀ c' ∈ calls, p c' = true → c' = c) :
    lastCall p calls = some c := by
  unfold lastCall
  cases h : calls.reverse.find? p with
  | none =>
    rw [List.find?_eq_none] at h
    exact absurd hp (h c (List.mem_reverse.mpr hc))
  | some x =>
    have h1 := List.find?_some h
    have h2 := List.mem_reverse.mp (List.mem_of_find?_eq_some h)
    rw [hu x h2 h1]

/-- An item created for a value of one digit compares equal to the integer
object of that value and reads back as it. -/
theorem item_holds_single (c : AddCall) (h : single_digit c.val) :
    long_eq c.item.val (PyLong_FromLong c.val) = true ∧ PyLong_AsLong c.item.val = c.val := by
  have h1 := item_eq_key c c.val h
  simp only [PyObject_Eq, decide_True] at h1
  refine ⟨h1, ?_⟩
  unfold single_digit at h
  exact PyLong_AsLong_of_eq _ _ (by unfold is_int INT_MIN INT_MAX; omega) h1

/-- As a dictionary key, an item created for a value of one digit behaves as
the integer object of that value. -/
theorem item_as_key (x : PyObject) (c : AddCall) (h : single_digit c.val) :
    PyObject_Eq x (.enumItem c.item) = PyObject_Eq x (.long (PyLong_FromLong c.val)) := by
  have h1 : PyObject_Eq (.enumItem c.item) (.long (PyLong_FromLong c.val)) = true :=
    (item_holds_single c h).1
  by_cases h2 : PyObject_Eq x (.enumItem c.item) = true
  · rw [h2, PyObject_Eq_trans h2 h1]
  · have h3 : PyObject_Eq x (.long (PyLong_FromLong c.val)) ≠ true := by
      intro h3
      exact h2 (PyObject_Eq_trans h3 (PyObject_Eq_symm h1))
    simp only [Bool.not_eq_true] at h2 h3
    rw [h2, h3]

theorem item_eq_item (c c' : AddCall) (h' : single_digit c'.val) :
    PyObject_Eq (.enumItem c.item) (.enumItem c'.item) = decide (c.val = c'.val) := by
  rw [item_as_key _ c' h', item_eq_key c c'.val h']

/-- Looking up a value of one digit yields the item of the last call that
added this value, and the integer object itself if there is no such call. -/
theorem lookupValue_single (calls : List AddCall) (v : Int) (hv : single_digit v) :
    zbarEnum_LookupValue (calls.foldl register ⟨[], []⟩) v =
      match lastCall (fun c => decide (c.val = v)) calls with
      | some c => .enumItem c.item
      | none => .long (PyLong_FromLong v) := by
  unfold zbarEnum_LookupValue
  simp only [byvalue_foldl, item_eq_key _ v hv, PyDict_GetItem, Option.or_none]
  cases lastCall (fun c => decide (c.val = v)) calls <;> simp

/-- Looking up a name in `byname` yields the item of the last call that added
this name. -/
theorem byname_lookup (calls : List AddCall) (name : String) :
    PyDict_GetItem (calls.foldl register ⟨[], []⟩).byname (.unicode name) =
      (lastCall (fun c => c.name == name) calls).map AddCall.item := by
  simp only [byname_foldl, PyObject_Eq, PyDict_GetItem, Option.or_none]


/-! ## Additions with pairwise distinct keys -/

theorem PyDict_SetItem_fresh (d : PyDict) (k : PyObject) (v : zbarEnumItem)
    (h : ∀ entry ∈ d, PyObject_Eq entry.1 k = false) :
    PyDict_SetItem d k v = d ++ [(k, v)] := by
  induction d with
  | nil => rfl
  | cons entry rest ih =>
    obtain ⟨k0, v0⟩ := entry
    have h0 : PyObject_Eq k0 k = false := h (k0, v0) (List.mem_cons_self _ _)
    simp only [PyDict_SetItem, h0, Bool.false_eq_true, if_false, List.cons_append]
    rw [ih (fun entry hentry => h entry (List.mem_cons_of_mem _ hentry))]

theorem foldl_register_snoc (cs : List AddCall) (c : AddCall) (self : zbarEnum) :
    (cs ++ [c]).foldl register self = register (cs.foldl register self) c := by
  simp [List.foldl_append]

theorem byname_distinct (calls : List AddCall)
    (hnames : (calls.map AddCall.name).Nodup) :
    (calls.foldl register ⟨[], []⟩).byname = calls.map AddCall.byname_entry := by
  induction calls using List.reverseRecOn with
  | nil => rfl
  | append_singleton cs c ih =>
    rw [List.map_append, List.nodup_append] at hnames
    obtain ⟨h1, _, h3⟩ := hnames
    rw [foldl_register_snoc, register, ih h1, List.map_append]
    apply PyDict_SetItem_fresh
    intro entry hentry
    obtain ⟨c', hc', rfl⟩ := List.mem_map.mp hentry
    simp only [AddCall.byname_entry, PyObject_Eq, beq_eq_false_iff_ne, ne_eq]
    intro hn
    exact h3 (List.mem_map_of_mem _ hc') (by simp [hn])

theorem byvalue_distinct (calls : List AddCall)
    (hvals : (calls.map AddCall.val).Nodup) (hdigit : ∀ c ∈ calls, single_digit c.val) :
    (calls.foldl register ⟨[], []⟩).byvalue = calls.map AddCall.byvalue_entry := by
  induction calls using List.reverseRecOn with
  | nil => rfl
  | append_singleton cs c ih =>
    rw [List.map_append, List.nodup_append] at hvals
    obtain ⟨h1, _, h3⟩ := hvals
    rw [foldl_register_snoc, register,
      ih h1 (fun c' hc' => hdigit c' (List.mem_append_left _ hc')), List.map_append]
    apply PyDict_SetItem_fresh
    intro entry hentry
    obtain ⟨c', hc', rfl⟩ := List.mem_map.mp hentry
    simp only [AddCall.byvalue_entry]
    rw [item_eq_item c' c (hdigit c (by simp))]
    simp only [decide_eq_false_iff_not]
    intro hn
    exact h3 (List.mem_map_of_mem _ hc') (by simp [hn])

theorem selected_iff (mask : Nat) (c : AddCall) (h : single_digit c.val) :
    ((PyLong_AsLong c.item.val % (ULONG_RANGE : Int)).toNat < 32 ∧
      (mask >>> (PyLong_AsLong c.item.val % (ULONG_RANGE : Int)).toNat) &&& 1 ≠ 0) ↔
    c.selected mask = true := by
  rw [(item_holds_single c h).2]
  unfold single_digit at h
  simp only [AddCall.selected, decide_eq_true_eq, ULONG_RANGE]
  by_cases hneg : c.val < 0
  · have : ¬ ((c.val % ((2 ^ 64 : Nat) : Int)).toNat < 32) := by
      norm_num
      omega
    constructor
    · intro hh
      exact absurd hh.1 this
    · intro hh
      omega
  · have : (c.val % ((2 ^ 64 : Nat) : Int)).toNat = c.val.toNat := by
      norm_num
      omega
    rw [this]
    constructor
    · intro hh
      exact ⟨by omega, by omega, hh.2⟩
    · intro hh
      exact ⟨by omega, hh.2.2⟩

/-- With pairwise distinct values of one digit, the result of
`zbarEnum_SetFromMask` lists, in the order of the calls, the items of the
calls whose value is a set bit of the mask. -/
theorem setFromMask_distinct (calls : List AddCall) (mask : Nat)
    (hvals : (calls.map AddCall.val).Nodup) (hdigit : ∀ c ∈ calls, single_digit c.val) :
    zbarEnum_SetFromMask (calls.foldl register ⟨[], []⟩) mask =
      (calls.filter (AddCall.selected mask)).map AddCall.item := by
  induction calls using List.reverseRecOn with
  | nil => rfl
  | append_singleton cs c ih =>
    have hd' : ∀ c' ∈ cs, single_digit c'.val :=
      fun c' hc' => hdigit c' (List.mem_append_left _ hc')
    have hc : single_digit c.val := hdigit c (by simp)
    have hv := hvals
    rw [List.map_append, List.nodup_append] at hv
    obtain ⟨h1, _, h3⟩ := hv
    have ih' := ih h1 hd'
    unfold zbarEnum_SetFromMask at ih' ⊢
    rw [byvalue_distinct _ hvals hdigit, List.map_append, List.foldl_append]
    rw [byvalue_distinct _ h1 hd'] at ih'
    rw [ih']
    simp only [List.map_cons, List.map_nil, List.foldl_cons, List.foldl_nil,
      AddCall.byvalue_entry, List.filter_append, List.map_append]
    by_cases hsel : c.selected mask = true
    · have hcond := (selected_iff mask c hc).mpr hsel
      rw [if_pos hcond]
      have hfresh : ((cs.filter (AddCall.selected mask)).map AddCall.item).any
          (fun x => long_eq x.val c.item.val) = false := by
        rw [List.any_eq_false]
        intro x hx
        obtain ⟨c', hc', rfl⟩ := List.mem_map.mp hx
        have hc'' : c' ∈ cs := (List.mem_filter.mp hc').1
        have := item_eq_item c' c hc
        simp only [PyObject_Eq] at this
        rw [this]
        simp only [decide_eq_true_eq]
        intro hn
        exact h3 (List.mem_map_of_mem _ hc'') (by simp [hn])
      simp [PySet_Add, hfresh, List.filter, hsel]
    · have hcond := (not_congr (selected_iff mask c hc)).mpr hsel
      rw [if_neg hcond]
      simp [List.filter, hsel]


/-! ## The mask conversion when values repeat -/

theorem setFromMask_eq_foldl (self : zbarEnum) (mask : Nat) :
    zbarEnum_SetFromMask self mask = self.byvalue.foldl (setFromMask_step mask) [] := rfl

theorem PySet_Add_mono (set : List zbarEnumItem) (item x : zbarEnumItem) (h : x ∈ set) :
    x ∈ PySet_Add set item := by
  unfold PySet_Add
  split
  · exact h
  · exact List.mem_append_left _ h

theorem PySet_Add_mem (set : List zbarEnumItem) (item x : zbarEnumItem)
    (h : x ∈ PySet_Add set item) : x ∈ set ∨ x = item := by
  unfold PySet_Add at h
  split at h
  · exact Or.inl h
  · rcases List.mem_append.mp h with h | h
    · exact Or.inl h
    · exact Or.inr (by simpa using h)

theorem setFromMask_step_mono (mask : Nat) (result : List zbarEnumItem)
    (entry : PyObject × zbarEnumItem) (x : zbarEnumItem) (h : x ∈ result) :
    x ∈ setFromMask_step mask result entry := by
  unfold setFromMask_step
  simp only
  split
  · exact PySet_Add_mono _ _ _ h
  · exact h

theorem setFromMask_foldl_mono (mask : Nat) (d : PyDict) (result : List zbarEnumItem)
    (x : zbarEnumItem) (h : x ∈ result) : x ∈ d.foldl (setFromMask_step mask) result := by
  induction d generalizing result with
  | nil => exact h
  | cons entry rest ih => exact ih _ (setFromMask_step_mono mask result entry x h)

theorem setFromMask_step_mem (mask : Nat) (result : List zbarEnumItem)
    (entry : PyObject × zbarEnumItem) (x : zbarEnumItem)
    (h : x ∈ setFromMask_step mask result entry) : x ∈ result ∨ x = entry.2 := by
  unfold setFromMask_step at h
  simp only at h
  split at h
  · exact PySet_Add_mem _ _ _ h
  · exact Or.inl h

/-- The values of a well-formed `byvalue` are pairwise unequal. -/
theorem byvalue_wf_values {d : PyDict} (h : byvalue_wf d) :
    d.Pairwise (fun x y => long_eq x.2.val y.2.val = false) := by
  obtain ⟨h1, h2⟩ := h
  refine List.Pairwise.imp_of_mem ?_ h1
  intro x y hx hy hxy
  by_contra hc
  simp only [Bool.not_eq_false] at hc
  have e1 := h2 x hx
  have e2 := h2 y hy
  have e3 : PyObject_Eq (.enumItem x.2) (.enumItem y.2) = true := hc
  have := PyObject_Eq_trans (PyObject_Eq_trans e1 e3) (PyObject_Eq_symm e2)
  rw [hxy] at this
  exact Bool.false_ne_true this

theorem setFromMask_foldl_selects (mask : Nat) (d : PyDict) (result : List zbarEnumItem)
    (hd : d.Pairwise (fun x y => long_eq x.2.val y.2.val = false))
    (hr : ∀ x ∈ result, ∀ entry ∈ d, long_eq x.val entry.2.val = false)
    (entry : PyObject × zbarEnumItem) (hentry : entry ∈ d)
    (hsel : (PyLong_AsLong entry.2.val % (ULONG_RANGE : Int)).toNat < 32 ∧
      (mask >>> (PyLong_AsLong entry.2.val % (ULONG_RANGE : Int)).toNat) &&& 1 ≠ 0) :
    entry.2 ∈ d.foldl (setFromMask_step mask) result := by
  induction d generalizing result with
  | nil => simp at hentry
  | cons head rest ih =>
    rw [List.pairwise_cons] at hd
    obtain ⟨hhead, hrest⟩ := hd
    rw [List.foldl_cons]
    rcases List.mem_cons.mp hentry with rfl | hmem
    · apply setFromMask_foldl_mono
      have hfresh : result.any (fun x => long_eq x.val entry.2.val) = false := by
        rw [List.any_eq_false]
        intro x hx
        simp [hr x hx entry (List.mem_cons_self _ _)]
      unfold setFromMask_step
      simp only
      rw [if_pos hsel]
      simp [PySet_Add, hfresh]
    · apply ih _ hrest _ hmem
      intro x hx y hy
      rcases setFromMask_step_mem mask result head x hx with hx | rfl
      · exact hr x hx y (List.mem_cons_of_mem _ hy)
      · exact hhead y hy

theorem PyDict_SetItem_mem (d : PyDict) (k : PyObject) (v : zbarEnumItem)
    (entry : PyObject × zbarEnumItem) (h : entry ∈ PyDict_SetItem d k v) :
    entry ∈ d ∨ (entry.2 = v ∧ PyObject_Eq entry.1 k = true) := by
  induction d with
  | nil =>
    simp only [PyDict_SetItem, List.mem_singleton] at h
    subst h
    exact Or.inr ⟨rfl, PyObject_Eq_refl _⟩
  | cons head rest ih =>
    obtain ⟨k0, v0⟩ := head
    simp only [PyDict_SetItem] at h
    split at h
    · rename_i h0
      rcases List.mem_cons.mp h with rfl | h
      · exact Or.inr ⟨rfl, h0⟩
      · exact Or.inl (List.mem_cons_of_mem _ h)
    · rcases List.mem_cons.mp h with rfl | h
      · exact Or.inl (List.mem_cons_self _ _)
      · rcases ih h with h | h
        · exact Or.inl (List.mem_cons_of_mem _ h)
        · exact Or.inr h

theorem PyDict_SetItem_keys (d : PyDict) (k : PyObject) (v : zbarEnumItem)
    (entry : PyObject × zbarEnumItem) (h : entry ∈ PyDict_SetItem d k v) :
    (∃ v0, (entry.1, v0) ∈ d) ∨ (entry = (k, v) ∧ ∀ x ∈ d, PyObject_Eq x.1 k = false) := by
  induction d with
  | nil =>
    simp only [PyDict_SetItem, List.mem_singleton] at h
    exact Or.inr ⟨h, by simp⟩
  | cons head rest ih =>
    obtain ⟨k0, v0⟩ := head
    simp only [PyDict_SetItem] at h
    split at h
    · rcases List.mem_cons.mp h with rfl | h
      · exact Or.inl ⟨v0, List.mem_cons_self _ _⟩
      · exact Or.inl ⟨entry.2, List.mem_cons_of_mem _ h⟩
    · rename_i h0
      rcases List.mem_cons.mp h with rfl | h
      · exact Or.inl ⟨v0, List.mem_cons_self _ _⟩
      · rcases ih h with ⟨v1, h1⟩ | ⟨h1, h2⟩
        · exact Or.inl ⟨v1, List.mem_cons_of_mem _ h1⟩
        · refine Or.inr ⟨h1, ?_⟩
          intro x hx
          rcases List.mem_cons.mp hx with rfl | hx
          · simpa using h0
          · exact h2 x hx

theorem PyDict_SetItem_pairwise (d : PyDict) (k : PyObject) (v : zbarEnumItem)
    (h : d.Pairwise (fun x y => PyObject_Eq x.1 y.1 = false)) :
    (PyDict_SetItem d k v).Pairwise (fun x y => PyObject_Eq x.1 y.1 = false) := by
  induction d with
  | nil => simp [PyDict_SetItem]
  | cons head rest ih =>
    obtain ⟨k0, v0⟩ := head
    rw [List.pairwise_cons] at h
    obtain ⟨hhead, hrest⟩ := h
    simp only [PyDict_SetItem]
    split
    · rw [List.pairwise_cons]
      exact ⟨hhead, hrest⟩
    · rename_i h0
      rw [List.pairwise_cons]
      refine ⟨?_, ih hrest⟩
      intro y hy
      rcases PyDict_SetItem_keys rest k v y hy with ⟨v1, h1⟩ | ⟨h1, _⟩
      · exact hhead (y.1, v1) h1
      · rw [h1]
        simpa using h0

theorem register_wf (self : zbarEnum) (c : AddCall) (h : byvalue_wf self.byvalue) :
    byvalue_wf (register self c).byvalue := by
  obtain ⟨h1, h2⟩ := h
  refine ⟨PyDict_SetItem_pairwise _ _ _ h1, ?_⟩
  intro entry hentry
  rcases PyDict_SetItem_mem _ _ _ _ hentry with hmem | ⟨hv, hk⟩
  · exact h2 entry hmem
  · rw [hv]
    exact hk

theorem foldl_register_wf (calls : List AddCall) (self : zbarEnum)
    (h : byvalue_wf self.byvalue) : byvalue_wf (calls.foldl register self).byvalue := by
  induction calls generalizing self with
  | nil => exact h
  | cons c cs ih => exact ih _ (register_wf self c h)

theorem PyDict_GetItem_mem (d : PyDict) (key : PyObject) (v : zbarEnumItem)
    (h : PyDict_GetItem d key = some v) : ∃ k, (k, v) ∈ d := by
  induction d with
  | nil => simp [PyDict_GetItem] at h
  | cons head rest ih =>
    obtain ⟨k0, v0⟩ := head
    simp only [PyDict_GetItem] at h
    split at h
    · simp only [Option.some.injEq] at h
      subst h
      exact ⟨k0, List.mem_cons_self _ _⟩
    · obtain ⟨k, hk⟩ := ih h
      exact ⟨k, List.mem_cons_of_mem _ hk⟩


/-! ## Value lookup -/

/-- C2, as amended: in an `Enum` built by successful additions, a pair
`(value, name)` whose value fits in one digit and is not added again by a
later call is found by `zbarEnum_LookupValue`: the result is the item that
call created (not the raw integer), its name is `name`, and `enumitem_str`
of it is `name`. -/
theorem lookupValue_finds_last_added (a b d : Bool) (e0 e : zbarEnum)
    (pre post : List AddCall) (c : AddCall)
    (hnew : zbarEnum_New a b d = some e0)
    (hadd : addAll e0 (pre ++ c :: post) = some e)
    (hdigit : single_digit c.val)
    (hlast : ∀ c' ∈ post, c'.val ≠ c.val) :
    zbarEnum_LookupValue e c.val = .enumItem c.item ∧ c.item.name = c.name ∧
      enumitem_str c.item = .unicode c.name := by
  rw [zbarEnum_New_eq_some hnew] at hadd
  obtain ⟨_, he⟩ := addAll_eq_some hadd
  refine ⟨?_, rfl, rfl⟩
  rw [he, lookupValue_single _ _ hdigit,
    lastCall_split (fun c' => decide (c'.val = c.val)) pre post c (by simp)
      (fun c' hc' => by simpa using hlast c' hc')]

/-- Witness for C2 at the calls `(1, "A")`, `(2, "B")`: looking up `2` yields
the item named `"B"`. -/
theorem lookupValue_finds_last_added_witness :
    zbarEnum_LookupValue
        ⟨[(.unicode "A", ⟨⟨1, [1, 7]⟩, "A", "zbar.EnumItem"⟩),
          (.unicode "B", ⟨⟨1, [2, 9]⟩, "B", "zbar.EnumItem"⟩)],
         [(.enumItem ⟨⟨1, [1, 7]⟩, "A", "zbar.EnumItem"⟩, ⟨⟨1, [1, 7]⟩, "A", "zbar.EnumItem"⟩),
          (.enumItem ⟨⟨1, [2, 9]⟩, "B", "zbar.EnumItem"⟩, ⟨⟨1, [2, 9]⟩, "B", "zbar.EnumItem"⟩)]⟩ 2
      = .enumItem ⟨⟨1, [2, 9]⟩, "B", "zbar.EnumItem"⟩ :=
  (lookupValue_finds_last_added true true true ⟨[], []⟩ _ [AddCall.mk_ok 1 "A" 7] []
    (AddCall.mk_ok 2 "B" 9) (by decide) (by decide) (by decide) (by simp)).1

/-- C2 as stated fails: after adding `(1, "A")` and then `(1, "B")`, the pair
`(1, "A")` was added, yet looking up `1` yields the item named `"B"`. -/
theorem lookupValue_repeated_value :
    ((zbarEnum_New true true true).bind
        (fun e0 => addAll e0 [AddCall.mk_ok 1 "A" 0, AddCall.mk_ok 1 "B" 0])).map
      (fun e => zbarEnum_LookupValue e 1)
      = some (.enumItem ⟨⟨1, [1, 0]⟩, "B", "zbar.EnumItem"⟩) ∧ "B" ≠ "A" := by
  decide

/-- C3 fails on the code: after the single successful call
`zbarEnum_Add(self, INT_MIN, "X")` whose fresh object holds `1` in the word
after `ob_digit[0]`, looking up `-1073741824`, a value never added, returns
the item `"X"` and not the integer. -/
theorem lookupValue_never_added_returns_item :
    ((zbarEnum_New true true true).bind
        (fun e0 => addAll e0 [AddCall.mk_ok (-2147483648) "X" 1])).map
      (fun e => zbarEnum_LookupValue e (-1073741824))
      = some (.enumItem ⟨⟨-2, [0, 1]⟩, "X", "zbar.EnumItem"⟩) ∧
    (-1073741824 : Int) ≠ -2147483648 := by
  decide

/-- Support for C3: a value of one digit that no call added is answered
with the integer object itself. -/
theorem lookupValue_never_added_single (a b d : Bool) (e0 e : zbarEnum)
    (calls : List AddCall) (val : Int)
    (hnew : zbarEnum_New a b d = some e0)
    (hadd : addAll e0 calls = some e)
    (hdigit : single_digit val)
    (hnever : ∀ c ∈ calls, c.val ≠ val) :
    zbarEnum_LookupValue e val = .long (PyLong_FromLong val) := by
  rw [zbarEnum_New_eq_some hnew] at hadd
  obtain ⟨_, he⟩ := addAll_eq_some hadd
  rw [he, lookupValue_single _ _ hdigit,
    lastCall_none _ _ (fun c hc => by simpa using hnever c hc)]

/-- C6 fails on the code: `1073741824` is added twice, as `"N1"` and then as
`"N2"`, both fresh objects holding `0` in the word after `ob_digit[0]`;
looking up `1073741824` returns the integer, not the item named `"N2"`. -/
theorem lookupValue_wide_value_lost :
    ((zbarEnum_New true true true).bind
        (fun e0 => addAll e0
          [AddCall.mk_ok 1073741824 "N1" 0, AddCall.mk_ok 1073741824 "N2" 0])).map
      (fun e => zbarEnum_LookupValue e 1073741824)
      = some (.long ⟨2, [0, 1]⟩) := by
  decide


/-! ## The worked example of the mask conversion -/

/-- C4, as amended: for the `Enum` obtained by adding `(1, "A")`, `(2, "B")`,
`(4, "C")`, whatever the fresh objects held, `zbarEnum_SetFromMask(0b101)`
returns the set containing exactly the item named `"B"`: the values are bit
numbers, and of bits 1, 2 and 4 only bit 2 is set in `0b101`.  The set of
the items named `"A"` and `"C"` is the result for the mask `0b10010`. -/
theorem setFromMask_example (w1 w2 w3 : Nat) (s1 s2 s3 : Bool) :
    ((zbarEnum_New true true true).bind
        (fun e0 => addAll e0
          [⟨1, "A", ⟨some w1, true, true, true, true, s1⟩⟩,
           ⟨2, "B", ⟨some w2, true, true, true, true, s2⟩⟩,
           ⟨4, "C", ⟨some w3, true, true, true, true, s3⟩⟩])).map
      (fun e => (zbarEnum_SetFromMask e 5, zbarEnum_SetFromMask e 18))
      = some ([⟨⟨1, [2, w2]⟩, "B", "zbar.EnumItem"⟩],
          [⟨⟨1, [1, w1]⟩, "A", "zbar.EnumItem"⟩, ⟨⟨1, [4, w3]⟩, "C", "zbar.EnumItem"⟩]) := by
  have h : ∀ c ∈ ([⟨1, "A", ⟨some w1, true, true, true, true, s1⟩⟩,
      ⟨2, "B", ⟨some w2, true, true, true, true, s2⟩⟩,
      ⟨4, "C", ⟨some w3, true, true, true, true, s3⟩⟩] : List AddCall), c.rt.ok = true := by
    intro c hc
    simp only [List.mem_cons, List.mem_singleton, List.not_mem_nil, or_false] at hc
    rcases hc with rfl | rfl | rfl <;> rfl
  have hnew : zbarEnum_New true true true = some ⟨[], []⟩ := rfl
  rw [hnew, Option.some_bind, addAll_success _ _ h]
  have k1 : PyLong_FromLong 1 = ⟨1, [1]⟩ := by decide
  have k2 : PyLong_FromLong 2 = ⟨1, [2]⟩ := by decide
  have k4 : PyLong_FromLong 4 = ⟨1, [4]⟩ := by decide
  simp [register, AddCall.item, copy_longval, k1, k2, k4,
    PyDict_SetItem, PyObject_Eq, long_eq, zbarEnum_SetFromMask, PyLong_AsLong, PySet_Add,
    ULONG_RANGE]

/-- C4 as stated fails: with every fresh object zero-filled, the result of
`zbarEnum_SetFromMask(0b101)` holds the item named `"B"` alone, so it is not
the set of the items named `"A"` and `"C"`. -/
theorem setFromMask_example_is_not_A_C :
    ((zbarEnum_New true true true).bind
        (fun e0 => addAll e0
          [AddCall.mk_ok 1 "A" 0, AddCall.mk_ok 2 "B" 0, AddCall.mk_ok 4 "C" 0])).map
      (fun e => (zbarEnum_SetFromMask e 5).map (fun item => item.name))
      = some ["B"] := by
  decide

/-! ## Construction of an item -/

/-- C8 fails on the code: `enumitem_new` with value `1073741824` (two
digits, `[0, 1]`) yields an item with `ob_size = 2` whose digit words read
`[0, 0]`; it does not compare equal to the integer `1073741824` and reads
back as `0`.  `zbarEnumItem_New` yields the same item when its fresh object
holds `0` after `ob_digit[0]`. -/
theorem enumitem_new_wide_value :
    enumitem_new "zbar.EnumItem" (some (1073741824, "x")) true true
      = some ⟨⟨2, [0, 0]⟩, "x", "zbar.EnumItem"⟩ ∧
    zbarEnumItem_New (Runtime.success 0) none none 1073741824 "x"
      = .returns (some ⟨⟨2, [0, 0]⟩, "x", "zbar.EnumItem"⟩, none, none) ∧
    long_eq ⟨2, [0, 0]⟩ (PyLong_FromLong 1073741824) = false ∧
    PyLong_AsLong ⟨2, [0, 0]⟩ = 0 :=
  ⟨by decide, by decide, by decide, by decide⟩

/-- Support for C8: whatever the word after `ob_digit[0]` holds, there is a
C `int` that the item built from it does not compare equal to. -/
theorem copy_longval_misses_some_int (word : Nat) :
    ∃ val, is_int val ∧
      long_eq (copy_longval (PyLong_FromLong val) word) (PyLong_FromLong val) = false := by
  by_cases h : word = 1
  · refine ⟨-2147483648, by decide, ?_⟩
    subst h
    decide
  · refine ⟨1073741824, by decide, ?_⟩
    have k : PyLong_FromLong 1073741824 = ⟨2, [0, 1]⟩ := by decide
    simp [k, copy_longval, long_eq, h]

/-- Support for C8: for a value of one digit, both constructors yield an
item that compares equal to the integer `val` and reads back as `val`. -/
theorem item_holds_single_digit (val : Int) (name tp_name : String) (word : Nat)
    (h : single_digit val) :
    (∀ item, enumitem_new tp_name (some (val, name)) true true = some item →
      long_eq item.val (PyLong_FromLong val) = true ∧ PyLong_AsLong item.val = val) ∧
    (∀ item byname byvalue,
      zbarEnumItem_New (Runtime.success word) none none val name
        = .returns (some item, byname, byvalue) →
      long_eq item.val (PyLong_FromLong val) = true ∧ PyLong_AsLong item.val = val) := by
  constructor
  · intro item hitem
    simp only [enumitem_new, Bool.not_true, Bool.false_eq_true, if_false,
      Option.some.injEq] at hitem
    subst hitem
    exact item_holds_single (AddCall.mk_ok val name 0) h
  · intro item byname byvalue hitem
    simp only [zbarEnumItem_New, Runtime.success, Bool.not_true, Bool.false_eq_true, if_false,
      Outcome.returns.injEq, Prod.mk.injEq, Option.some.injEq] at hitem
    obtain ⟨hitem, _⟩ := hitem
    subst hitem
    exact item_holds_single (AddCall.mk_ok val name word) h

/-! ## Failure of an addition -/

/-- C9, as amended: in a call in which creating the integer value of the item
does not fail, `zbarEnum_Add` returns, and it returns `-1` exactly when
allocating the item, creating its name or inserting into either index fails,
and `0` exactly when none of them fails; whenever it returns `-1`, `byvalue`
is as before the call, and when the failing step is the allocation, the name
or the insertion into `byname`, `byname` is as before as well. -/
theorem zbarEnum_Add_failure (rt : Runtime) (self : zbarEnum) (val : Int) (name : String)
    (hlong : rt.object = none ∨ rt.long_ok = true) :
    ∃ status self1, zbarEnum_Add rt self val name = .returns (status, self1) ∧
      (status = -1 ↔
        (rt.object = none ∨ rt.name_ok = false ∨ rt.byname_ok = false ∨
          rt.byvalue_ok = false)) ∧
      (status = 0 ↔
        (rt.object ≠ none ∧ rt.name_ok = true ∧ rt.byname_ok = true ∧ rt.byvalue_ok = true)) ∧
      (status = -1 → self1.byvalue = self.byvalue) ∧
      ((rt.object = none ∨ rt.name_ok = false ∨ rt.byname_ok = false) → self1 = self) := by
  obtain ⟨object, long_ok, name_ok, byname_ok, byvalue_ok, stale_name⟩ := rt
  cases object <;> cases long_ok <;> cases name_ok <;> cases byname_ok <;> cases byvalue_ok <;>
    cases stale_name <;>
    first
    | (simp at hlong; done)
    | (refine ⟨_, _, rfl, ?_⟩; simp)

/-- Witness for C9 at a call in which the creation of the name fails, on an
`Enum` that already holds `(2, "B")`: the call returns `-1` and leaves the
`Enum` as it was. -/
theorem zbarEnum_Add_failure_witness :
    zbarEnum_Add ⟨some 5, true, false, true, true, true⟩
        ⟨[(.unicode "B", ⟨⟨1, [2, 0]⟩, "B", "zbar.EnumItem"⟩)],
         [(.enumItem ⟨⟨1, [2, 0]⟩, "B", "zbar.EnumItem"⟩, ⟨⟨1, [2, 0]⟩, "B", "zbar.EnumItem"⟩)]⟩
        1 "A"
      = .returns (-1,
        ⟨[(.unicode "B", ⟨⟨1, [2, 0]⟩, "B", "zbar.EnumItem"⟩)],
         [(.enumItem ⟨⟨1, [2, 0]⟩, "B", "zbar.EnumItem"⟩,
            ⟨⟨1, [2, 0]⟩, "B", "zbar.EnumItem"⟩)]⟩) := by
  obtain ⟨status, self1, hret, hfail, _, _, hsame⟩ :=
    zbarEnum_Add_failure ⟨some 5, true, false, true, true, true⟩
      ⟨[(.unicode "B", ⟨⟨1, [2, 0]⟩, "B", "zbar.EnumItem"⟩)],
       [(.enumItem ⟨⟨1, [2, 0]⟩, "B", "zbar.EnumItem"⟩, ⟨⟨1, [2, 0]⟩, "B", "zbar.EnumItem"⟩)]⟩
      1 "A" (Or.inr rfl)
  rw [hret, hfail.mpr (Or.inr (Or.inl rfl)), hsame (Or.inr (Or.inl rfl))]

/-- C9 as stated fails: when only the insertion into `byvalue` fails,
`zbarEnum_Add` returns `-1` and the item stays registered in `byname`; when
the allocation of the item fails, it returns `-1` although neither the
creation of the name nor an insertion fails; and when creating the integer
value of `(1000, "A")` fails while the unwritten `name` field of the fresh
object is not `NULL`, releasing the item has no defined behaviour, so the
call returns neither `-1` nor `0`. -/
theorem zbarEnum_Add_partial_registration :
    zbarEnum_Add ⟨some 0, true, true, true, false, false⟩ ⟨[], []⟩ 1 "A"
      = .returns (-1, ⟨[(.unicode "A", ⟨⟨1, [1, 0]⟩, "A", "zbar.EnumItem"⟩)], []⟩) ∧
    zbarEnum_Add ⟨none, true, true, true, true, false⟩ ⟨[], []⟩ 1 "A"
      = .returns (-1, ⟨[], []⟩) ∧
    zbarEnum_Add ⟨some 0, false, true, true, true, true⟩ ⟨[], []⟩ 1000 "A" = .undefined :=
  ⟨by decide, by decide, by decide⟩

/-- Support for C9: when creating the integer value fails and the unwritten
`name` field of the fresh object happens to be `NULL`, `zbarEnum_Add` returns
`-1` and leaves the `Enum` as it was. -/
theorem zbarEnum_Add_long_failure (word : Nat) (name_ok byname_ok byvalue_ok : Bool)
    (self : zbarEnum) (val : Int) (name : String) :
    zbarEnum_Add ⟨some word, false, name_ok, byname_ok, byvalue_ok, false⟩ self val name
      = .returns (-1, self) := by
  simp [zbarEnum_Add, zbarEnumItem_New]

/-! ## Representation of an item -/

theorem copy_longval_no_overflow (v : Int) (word : Nat) (h : single_digit v) :
    PyLong_AsLong_overflow (copy_longval (PyLong_FromLong v) word) = false := by
  rw [PyLong_FromLong_single v h]
  unfold PyLong_AsLong_overflow copy_longval
  by_cases h1 : v < 0
  · simp [h1]
  · by_cases h2 : v = 0 <;> simp [h1, h2]

/-- C10, as amended: for an item with name `n` whose value was built from a
C `int` `v` of magnitude below `2 ^ 30` (its integer part is the copy of the
integer object of `v` that both constructors make, whatever the word after
`ob_digit[0]` holds), `enumitem_repr` returns the type name,
`"("`, the decimal rendering of `v`, `", "`, the repr of `n` and `")"` when
computing the repr of the name and formatting the result both succeed, and
it fails (returns `NULL` or leaves an error pending) exactly when computing
the repr of the name fails or formatting the result fails. -/
theorem enumitem_repr_format (repr : String → Option String) (format_ok : Bool)
    (self : zbarEnumItem) (v : Int) (word : Nat)
    (hv : single_digit v) (hbuilt : self.val = copy_longval (PyLong_FromLong v) word) :
    enumitem_repr repr format_ok self =
        (if format_ok then
          (repr self.name).map
            (fun r => self.tp_name ++ "(" ++ toString v ++ ", " ++ r ++ ")")
        else none, false) ∧
      (((enumitem_repr repr format_ok self).1 = none ∨
          (enumitem_repr repr format_ok self).2 = true) ↔
        (repr self.name = none ∨ format_ok = false)) := by
  have hval : PyLong_AsLong self.val = v := by
    rw [hbuilt]
    exact (item_holds_single (AddCall.mk_ok v self.name word) hv).2
  have hover : PyLong_AsLong_overflow self.val = false := by
    rw [hbuilt]
    exact copy_longval_no_overflow v word hv
  unfold enumitem_repr
  rw [hval, hover]
  cases repr self.name <;> cases format_ok <;> simp

/-- Witness for C10 at the item `(-7, "X")` of the base type, the repr of the
name being the name in single quotes and the formatting succeeding. -/
theorem enumitem_repr_format_witness :
    enumitem_repr (fun s => some ("'" ++ s ++ "'")) true ⟨⟨-1, [7, 0]⟩, "X", "zbar.EnumItem"⟩
      = (some "zbar.EnumItem(-7, 'X')", false) :=
  (enumitem_repr_format (fun s => some ("'" ++ s ++ "'")) true
    ⟨⟨-1, [7, 0]⟩, "X", "zbar.EnumItem"⟩ (-7) 0 (by decide) (by decide)).1.trans (by decide)

/-- C10 as stated fails: for the item `(7, "X")` the repr of the name is
computed, yet `enumitem_repr` fails when `PyUnicode_FromFormat` returns
`NULL`; and for the item that `enumitem_new` builds from the value
`1073741824` the rendered number is `0`. -/
theorem enumitem_repr_format_failure :
    enumitem_repr (fun s => some ("'" ++ s ++ "'")) false ⟨⟨1, [7, 0]⟩, "X", "zbar.EnumItem"⟩
      = (none, false) ∧
    (enumitem_new "zbar.EnumItem" (some (1073741824, "x")) true true).map
        (enumitem_repr (fun s => some ("'" ++ s ++ "'")) true)
      = some (some "zbar.EnumItem(0, 'x')", false) :=
  ⟨by decide, by decide⟩

/-- Support for C10: for an item that `zbarEnumItem_New` builds from a value
of two digits in a fresh object whose word after `ob_digit[0]` does not fit a
digit, `PyLong_AsLong` reports overflow; `enumitem_repr` returns a string
that renders `-1` and leaves the error pending. -/
theorem enumitem_repr_overflow :
    (match zbarEnumItem_New (Runtime.success 1073741824) none none 1073741824 "x" with
      | .returns (some item, _, _) =>
        some (enumitem_repr (fun s => some ("'" ++ s ++ "'")) true item)
      | _ => none)
      = some (some "zbar.EnumItem(-1, 'x')", true) := by
  decide

/-! ## Attribute access -/

/-- C7, as amended: attribute access on an `Enum` is the generic attribute
lookup with `byname` as the instance dictionary.  For an `Enum` built by
successful additions with pairwise distinct names: unless the type offers a
data descriptor under the name, access by a name that was added yields the
item created by that call, whose name is that name and which reads back as
the added value when the value fits in one digit; and when the type offers
nothing under a name that was never added, access fails with the attribute
error. -/
theorem getattr_is_byname_lookup (base : String → Option TypeAttr) (a b d : Bool)
    (e0 e : zbarEnum) (calls : List AddCall) (name : String)
    (hnew : zbarEnum_New a b d = some e0)
    (hadd : addAll e0 calls = some e)
    (hnames : (calls.map AddCall.name).Nodup) :
    ((∀ value, zbarEnum_Type_lookup base name ≠ some (.data value)) →
      ∀ c ∈ calls, c.name = name →
        zbarEnum_getattr base e name = some (.enumItem c.item) ∧ c.item.name = name ∧
          (single_digit c.val → PyLong_AsLong c.item.val = c.val)) ∧
    (zbarEnum_Type_lookup base name = none → (∀ c ∈ calls, c.name ≠ name) →
      zbarEnum_getattr base e name = none) := by
  rw [zbarEnum_New_eq_some hnew] at hadd
  obtain ⟨_, he⟩ := addAll_eq_some hadd
  constructor
  · intro hdata c hc hcn
    refine ⟨?_, hcn, fun h => (item_holds_single c h).2⟩
    have hlast : lastCall (fun c' => c'.name == name) calls = some c := by
      apply lastCall_unique _ _ _ hc (by simpa using hcn)
      intro c' hc' hp
      have hn : c'.name = c.name := by
        rw [hcn]
        simpa using hp
      exact List.inj_on_of_nodup_map hnames hc' hc hn
    have hget := byname_lookup calls name
    rw [hlast] at hget
    unfold zbarEnum_getattr
    rw [he]
    cases htype : zbarEnum_Type_lookup base name with
    | none => simp [hget]
    | some attr =>
      cases attr with
      | data value => exact absurd htype (hdata value)
      | other value => simp [hget]
  · intro htype hnever
    have hlast : lastCall (fun c' => c'.name == name) calls = none :=
      lastCall_none _ _ (fun c hc => by simpa using hnever c hc)
    have hget := byname_lookup calls name
    rw [hlast] at hget
    unfold zbarEnum_getattr
    rw [he, htype]
    simp [hget]

/-- Witness for C7 at the calls `(1, "A")`, `(2, "B")` and a base type that
offers nothing: access by `"B"` yields the item of the second call. -/
theorem getattr_is_byname_lookup_witness :
    zbarEnum_getattr (fun _ => none)
        ⟨[(.unicode "A", ⟨⟨1, [1, 7]⟩, "A", "zbar.EnumItem"⟩),
          (.unicode "B", ⟨⟨1, [2, 9]⟩, "B", "zbar.EnumItem"⟩)],
         [(.enumItem ⟨⟨1, [1, 7]⟩, "A", "zbar.EnumItem"⟩, ⟨⟨1, [1, 7]⟩, "A", "zbar.EnumItem"⟩),
          (.enumItem ⟨⟨1, [2, 9]⟩, "B", "zbar.EnumItem"⟩, ⟨⟨1, [2, 9]⟩, "B", "zbar.EnumItem"⟩)]⟩
        "B"
      = some (.enumItem ⟨⟨1, [2, 9]⟩, "B", "zbar.EnumItem"⟩) :=
  ((getattr_is_byname_lookup (fun _ => none) true true true ⟨[], []⟩ _
    [AddCall.mk_ok 1 "A" 7, AddCall.mk_ok 2 "B" 9] "B" (by decide) (by decide) (by decide)).1
      (by simp [zbarEnum_Type_lookup]) (AddCall.mk_ok 2 "B" 9) (by decide) (by decide)).1

/-- C7 as stated fails: on the `Enum` fresh from `zbarEnum_New`, to which no
name was added, access by the name `__doc__` does not fail, whatever the base
type offers; it yields the documentation string of the type. -/
theorem getattr_doc_never_added :
    ∃ e, zbarEnum_New true true true = some e ∧ e.byname = [] ∧
      ∀ base, zbarEnum_getattr base e "__doc__" = some (.unicode enum_doc) := by
  refine ⟨⟨[], []⟩, rfl, rfl, ?_⟩
  intro base
  simp [zbarEnum_getattr, zbarEnum_Type_lookup, PyDict_GetItem]


/-! ## The two indexes -/

/-- C5, as amended: for an `Enum` built by successful additions whose values
are pairwise distinct and fit in one digit and whose names are pairwise
distinct, every entry of `byname` is the name and the item of one of the
calls, and `byvalue` stores that same item under the call's value; every
entry of `byvalue` is the item of one of the calls, stored under itself, and
`byname` stores that same item under the call's name. -/
theorem index_consistency (a b d : Bool) (e0 e : zbarEnum) (calls : List AddCall)
    (hnew : zbarEnum_New a b d = some e0)
    (hadd : addAll e0 calls = some e)
    (hvals : (calls.map AddCall.val).Nodup)
    (hnames : (calls.map AddCall.name).Nodup)
    (hdigit : ∀ c ∈ calls, single_digit c.val) :
    (∀ entry ∈ e.byname, ∃ c ∈ calls, entry = (.unicode c.name, c.item) ∧
      PyDict_GetItem e.byvalue (.long (PyLong_FromLong c.val)) = some c.item) ∧
    (∀ entry ∈ e.byvalue, ∃ c ∈ calls, entry = (.enumItem c.item, c.item) ∧
      PyDict_GetItem e.byname (.unicode c.name) = some c.item) := by
  rw [zbarEnum_New_eq_some hnew] at hadd
  obtain ⟨_, he⟩ := addAll_eq_some hadd
  constructor
  · intro entry hentry
    rw [he, byname_distinct calls hnames] at hentry
    obtain ⟨c, hc, rfl⟩ := List.mem_map.mp hentry
    refine ⟨c, hc, rfl, ?_⟩
    rw [he, byvalue_foldl]
    have hlast : lastCall
        (fun c' => PyObject_Eq (.enumItem c'.item) (.long (PyLong_FromLong c.val))) calls
        = some c := by
      apply lastCall_unique _ _ _ hc
      · rw [item_eq_key c c.val (hdigit c hc)]
        simp
      · intro c' hc' hp
        rw [item_eq_key c' c.val (hdigit c hc)] at hp
        exact List.inj_on_of_nodup_map hvals hc' hc (by simpa using hp)
    rw [hlast]
    rfl
  · intro entry hentry
    rw [he, byvalue_distinct calls hvals hdigit] at hentry
    obtain ⟨c, hc, rfl⟩ := List.mem_map.mp hentry
    refine ⟨c, hc, rfl, ?_⟩
    rw [he, byname_lookup]
    have hlast : lastCall (fun c' => c'.name == c.name) calls = some c := by
      apply lastCall_unique _ _ _ hc (by simp)
      intro c' hc' hp
      exact List.inj_on_of_nodup_map hnames hc' hc (by simpa using hp)
    rw [hlast]
    rfl

/-- Witness for C5 at the calls `(1, "A")`, `(-2, "B")`: the `byname` entry
of `"B"` is answered by `byvalue` under `-2` with the same item. -/
theorem index_consistency_witness :
    ∃ c ∈ [AddCall.mk_ok 1 "A" 7, AddCall.mk_ok (-2) "B" 9],
      ((.unicode "B", ⟨⟨-1, [2, 9]⟩, "B", "zbar.EnumItem"⟩) : PyObject × zbarEnumItem)
        = (.unicode c.name, c.item) ∧
      PyDict_GetItem
        [(.enumItem ⟨⟨1, [1, 7]⟩, "A", "zbar.EnumItem"⟩, ⟨⟨1, [1, 7]⟩, "A", "zbar.EnumItem"⟩),
         (.enumItem ⟨⟨-1, [2, 9]⟩, "B", "zbar.EnumItem"⟩, ⟨⟨-1, [2, 9]⟩, "B", "zbar.EnumItem"⟩)]
        (.long (PyLong_FromLong c.val)) = some c.item :=
  (index_consistency true true true ⟨[], []⟩
    ⟨[(.unicode "A", ⟨⟨1, [1, 7]⟩, "A", "zbar.EnumItem"⟩),
      (.unicode "B", ⟨⟨-1, [2, 9]⟩, "B", "zbar.EnumItem"⟩)],
     [(.enumItem ⟨⟨1, [1, 7]⟩, "A", "zbar.EnumItem"⟩, ⟨⟨1, [1, 7]⟩, "A", "zbar.EnumItem"⟩),
      (.enumItem ⟨⟨-1, [2, 9]⟩, "B", "zbar.EnumItem"⟩, ⟨⟨-1, [2, 9]⟩, "B", "zbar.EnumItem"⟩)]⟩
    [AddCall.mk_ok 1 "A" 7, AddCall.mk_ok (-2) "B" 9]
    (by decide) (by decide) (by decide) (by decide) (by decide)).1
    (.unicode "B", ⟨⟨-1, [2, 9]⟩, "B", "zbar.EnumItem"⟩) (by decide)

/-- C5 as stated fails when a value or a name repeats.  After `(1, "A")`,
`(1, "B")` the item `(1, "A")` is stored in `byname` while `byvalue` holds
the item `(1, "B")` only; after `(1, "A")`, `(2, "A")` the item `(1, "A")` is
stored in `byvalue` while `byname` holds the item `(2, "A")` only. -/
theorem index_consistency_repeats :
    (zbarEnum_New true true true).bind
        (fun e0 => addAll e0 [AddCall.mk_ok 1 "A" 0, AddCall.mk_ok 1 "B" 0])
      = some
        ⟨[(.unicode "A", ⟨⟨1, [1, 0]⟩, "A", "zbar.EnumItem"⟩),
          (.unicode "B", ⟨⟨1, [1, 0]⟩, "B", "zbar.EnumItem"⟩)],
         [(.enumItem ⟨⟨1, [1, 0]⟩, "A", "zbar.EnumItem"⟩, ⟨⟨1, [1, 0]⟩, "B", "zbar.EnumItem"⟩)]⟩ ∧
    (zbarEnum_New true true true).bind
        (fun e0 => addAll e0 [AddCall.mk_ok 1 "A" 0, AddCall.mk_ok 2 "A" 0])
      = some
        ⟨[(.unicode "A", ⟨⟨1, [2, 0]⟩, "A", "zbar.EnumItem"⟩)],
         [(.enumItem ⟨⟨1, [1, 0]⟩, "A", "zbar.EnumItem"⟩, ⟨⟨1, [1, 0]⟩, "A", "zbar.EnumItem"⟩),
          (.enumItem ⟨⟨1, [2, 0]⟩, "A", "zbar.EnumItem"⟩, ⟨⟨1, [2, 0]⟩, "A", "zbar.EnumItem"⟩)]⟩ := by
  decide

/-! ## The mask conversion -/

/-- C1 fails on the code: after the single successful call
`zbarEnum_Add(self, 1073741827, "X")` whose fresh object holds `0` in the
word after `ob_digit[0]`, `zbarEnum_SetFromMask(8)` returns the set holding
the item `"X"`, although its value is not below `32`. -/
theorem setFromMask_wide_value :
    ((zbarEnum_New true true true).bind
        (fun e0 => addAll e0 [AddCall.mk_ok 1073741827 "X" 0])).map
      (fun e => zbarEnum_SetFromMask e 8)
      = some [⟨⟨2, [3, 0]⟩, "X", "zbar.EnumItem"⟩] := by
  decide

/-- Support for C1: when the added values are pairwise distinct and fit in
one digit, `zbarEnum_SetFromMask(mask)` holds exactly the items of the calls
whose value `v` satisfies `0 ≤ v < 32` and whose bit `v` of `mask` is set. -/
theorem setFromMask_single_digit (a b d : Bool) (e0 e : zbarEnum) (calls : List AddCall)
    (mask : Nat)
    (hnew : zbarEnum_New a b d = some e0)
    (hadd : addAll e0 calls = some e)
    (hvals : (calls.map AddCall.val).Nodup)
    (hdigit : ∀ c ∈ calls, single_digit c.val) (item : zbarEnumItem) :
    item ∈ zbarEnum_SetFromMask e mask ↔
      ∃ c ∈ calls, item = c.item ∧ 0 ≤ c.val ∧ c.val < 32 ∧
        (mask >>> c.val.toNat) &&& 1 = 1 := by
  rw [zbarEnum_New_eq_some hnew] at hadd
  obtain ⟨_, he⟩ := addAll_eq_some hadd
  rw [he, setFromMask_distinct calls mask hvals hdigit]
  have hbit : ∀ n : Nat, n &&& 1 ≠ 0 ↔ n &&& 1 = 1 := by
    intro n
    rw [Nat.and_one_is_mod]
    omega
  constructor
  · intro h
    obtain ⟨c, hc, rfl⟩ := List.mem_map.mp h
    obtain ⟨hc1, hc2⟩ := List.mem_filter.mp hc
    simp only [AddCall.selected, decide_eq_true_eq] at hc2
    exact ⟨c, hc1, rfl, hc2.1, hc2.2.1, (hbit _).mp hc2.2.2⟩
  · rintro ⟨c, hc, rfl, h1, h2, h3⟩
    apply List.mem_map_of_mem
    rw [List.mem_filter]
    refine ⟨hc, ?_⟩
    simp only [AddCall.selected, decide_eq_true_eq]
    exact ⟨h1, h2, (hbit _).mpr h3⟩

/-- Support for C6: the item stored in `byname` under a name is the one of
the last call that added the name. -/
theorem byname_last_added (a b d : Bool) (e0 e : zbarEnum) (pre post : List AddCall)
    (c : AddCall)
    (hnew : zbarEnum_New a b d = some e0)
    (hadd : addAll e0 (pre ++ c :: post) = some e)
    (hlast : ∀ c' ∈ post, c'.name ≠ c.name) :
    PyDict_GetItem e.byname (.unicode c.name) = some c.item := by
  rw [zbarEnum_New_eq_some hnew] at hadd
  obtain ⟨_, he⟩ := addAll_eq_some hadd
  rw [he, byname_lookup,
    lastCall_split (fun c' => c'.name == c.name) pre post c (by simp)
      (fun c' hc' => by simpa using hlast c' hc')]
  rfl


/-- Support for C6: when a value `0 ≤ v < 32` is added several times, the
item of the last call that added it is in the result of
`zbarEnum_SetFromMask` for every mask with bit `v` set. -/
theorem setFromMask_last_added (a b d : Bool) (e0 e : zbarEnum) (pre post : List AddCall)
    (c : AddCall) (mask : Nat)
    (hnew : zbarEnum_New a b d = some e0)
    (hadd : addAll e0 (pre ++ c :: post) = some e)
    (hlow : 0 ≤ c.val) (hhigh : c.val < 32)
    (hlast : ∀ c' ∈ post, c'.val ≠ c.val)
    (hbit : (mask >>> c.val.toNat) &&& 1 = 1) :
    c.item ∈ zbarEnum_SetFromMask e mask := by
  rw [zbarEnum_New_eq_some hnew] at hadd
  obtain ⟨_, he⟩ := addAll_eq_some hadd
  have hdigit : single_digit c.val := by
    unfold single_digit
    omega
  have hget : PyDict_GetItem e.byvalue (.long (PyLong_FromLong c.val)) = some c.item := by
    rw [he, byvalue_foldl]
    simp only [item_eq_key _ c.val hdigit]
    rw [lastCall_split (fun c' => decide (c'.val = c.val)) pre post c (by simp)
      (fun c' hc' => by simpa using hlast c' hc')]
    rfl
  obtain ⟨k, hk⟩ := PyDict_GetItem_mem _ _ _ hget
  have hwf : byvalue_wf e.byvalue := by
    rw [he]
    exact foldl_register_wf _ _ ⟨List.Pairwise.nil, by simp⟩
  have hsel : c.selected mask = true := by
    simp only [AddCall.selected, decide_eq_true_eq]
    refine ⟨hlow, hhigh, ?_⟩
    rw [hbit]
    decide
  rw [setFromMask_eq_foldl]
  exact setFromMask_foldl_selects mask e.byvalue [] (byvalue_wf_values hwf) (by simp) (k, c.item)
    hk ((selected_iff mask c hdigit).mpr hsel)


end Zbar
